import Mathlib

/-!
Verification of the visify audio/playback visualizer core.

Shallow embedding of the two pipelines:

1. the audio pipeline (src/spectrum.rs): ring-buffer sample store,
   FFT-output smoothing (peak hold) and the log-log display transform;
2. the playback-state pipeline (src/state.rs and src/lib.rs): the
   provider query mapping, the capacity-1 channel between the poller
   task and the render loop, and the per-frame consumer update.

Floating point values of the source are modelled as exact rationals;
machine integers (sample counts, milliseconds) as naturals.
-/

namespace Visify

/-! ### Ring buffer (spectrum.rs, Bode::new lines 33-35; AllocRingBuffer)

The buffer is the ringbuffer crate AllocRingBuffer: fixed capacity,
push evicts the oldest element once full, to_vec returns contents
oldest to newest.  We model the contents as a list in chronological
order (head = oldest). -/

/-- Capacity chosen by Bode::new line 33:
(5 * sampling_rate as usize).next_power_of_two(). -/
def ringCapacity (samplingRate : Nat) : Nat :=
  Nat.nextPowerOfTwo (5 * samplingRate)

/-- Initial buffer contents after buf.fill(0.0) at line 34: the buffer
is filled to capacity with zeros. -/
def rbInit (cap : Nat) : List ℚ := List.replicate cap 0

/-- One push into the ring buffer: appended at the newest end, evicting
the oldest element when the buffer is at capacity. -/
def rbPush (cap : Nat) (buf : List ℚ) (x : ℚ) : List ℚ :=
  if buf.length < cap then buf ++ [x] else buf.tail ++ [x]

/-- The capture producer writing a whole list of samples in order. -/
def rbWriteAll (cap : Nat) (buf : List ℚ) (ws : List ℚ) : List ℚ :=
  ws.foldl (rbPush cap) buf

/-- Helper: nextPowerOfTwo.go never goes below n once called. -/
theorem le_nextPowerOfTwo_go (n power : Nat) (h : 0 < power) :
    n ≤ Nat.nextPowerOfTwo.go n power h := by
  unfold Nat.nextPowerOfTwo.go
  split
  · exact le_nextPowerOfTwo_go n (power * 2) (Nat.mul_pos h (by decide))
  · omega
termination_by n - power
decreasing_by
  simp_wf
  apply Nat.nextPowerOfTwo_dec <;> assumption

/-- Rust usize::next_power_of_two returns a value at least its argument. -/
theorem le_nextPowerOfTwo (n : Nat) : n ≤ Nat.nextPowerOfTwo n :=
  le_nextPowerOfTwo_go n 1 (by decide)

/-- Pushing onto a full buffer of positive capacity keeps it full. -/
theorem rbPush_length_full (cap : Nat) (buf : List ℚ) (x : ℚ)
    (hc : 0 < cap) (hb : buf.length = cap) :
    (rbPush cap buf x).length = cap := by
  unfold rbPush
  rw [if_neg (by omega)]
  rcases buf with _ | ⟨y, ys⟩
  · simp at hb; omega
  · simp at hb ⊢; omega

/-- Writing any sample list into a full buffer keeps it full. -/
theorem rbWriteAll_length (cap : Nat) (buf : List ℚ) (ws : List ℚ)
    (hc : 0 < cap) (hb : buf.length = cap) :
    (rbWriteAll cap buf ws).length = cap := by
  induction ws generalizing buf with
  | nil => simpa [rbWriteAll]
  | cons w ws ih =>
      have h1 := rbPush_length_full cap buf w hc hb
      simpa [rbWriteAll, List.foldl_cons] using ih (rbPush cap buf w) h1

/-- On a full buffer, the whole write sequence appends at the newest end
and drops the same number of oldest elements. -/
theorem rbWriteAll_full_eq (cap : Nat) (buf : List ℚ) (ws : List ℚ)
    (hc : 0 < cap) (hb : buf.length = cap) :
    rbWriteAll cap buf ws = (buf ++ ws).drop ws.length := by
  induction ws generalizing buf with
  | nil => simp [rbWriteAll]
  | cons w ws ih =>
      have h1 : rbPush cap buf w = buf.tail ++ [w] := by
        unfold rbPush; rw [if_neg (by omega)]
      have h2 : (buf.tail ++ [w]).length = cap := by
        rcases buf with _ | ⟨y, ys⟩
        · simp at hb; omega
        · simp at hb ⊢; omega
      have h3 := ih (buf.tail ++ [w]) h2
      rcases buf with _ | ⟨y, ys⟩
      · simp at hb; omega
      · simp only [rbWriteAll, List.foldl_cons] at *
        rw [h1]
        rw [h3]
        simp [List.drop_append_eq_append_drop]

/-! ### Spectrum pipeline (spectrum.rs, Bode::get_spectrum and Bode::show)

The FFT itself is the external spectrum_analyzer crate:
samples_fft_to_spectrum over the 8192-sample Hann window with
FrequencyLimit::Max(10000.0) and divide_by_N scaling.  For a fixed
device sampling rate it returns one (frequency, magnitude) pair per
FFT index i in [0, 8192/2) whose frequency i * rate / 8192 is at most
10000 Hz; the magnitudes depend on the captured samples and are kept
abstract here (a function from bin index to magnitude). -/

/-- Window size N of Bode::get_spectrum (the last 8192 samples). -/
def windowSize : Nat := 8192

/-- FFT bin indices the external crate reports: indices below N/2 whose
frequency i * rate / N is within the 10 kHz limit. -/
def binIndices (rate : Nat) : List Nat :=
  (List.range (windowSize / 2)).filter (fun i => i * rate ≤ 10000 * windowSize)

/-- Number of reported FFT bins for a given sampling rate. -/
def numBins (rate : Nat) : Nat := (binIndices rate).length

/-- The instantaneous spectrum handed to the smoothing pass: one
(frequency, magnitude) pair per reported bin, frequency i * rate / N,
magnitudes abstract. -/
def instantSpectrum (rate : Nat) (mags : Nat → ℚ) : List (ℚ × ℚ) :=
  (binIndices rate).map (fun i => (((i * rate : Nat) : ℚ) / 8192, mags i))

/-- The per-bin smoothing update of Bode::get_spectrum lines 66-73:
the stored frequency is overwritten with the new bin frequency, and
the stored magnitude becomes max(new magnitude * 5000,
old magnitude * 0.84). -/
def updateBin (newBin oldBin : ℚ × ℚ) : ℚ × ℚ :=
  (newBin.1, max (newBin.2 * 5000) (oldBin.2 * (84 / 100)))

/-- The whole smoothing pass of Bode::get_spectrum lines 62-74: the
instantaneous spectrum is zipped with the persistent smoothed spectrum
(zip stops at the shorter list) and each zipped entry is updated in
place; entries of the old spectrum beyond the zip are untouched. -/
def smoothSpectrum (instant old : List (ℚ × ℚ)) : List (ℚ × ℚ) :=
  List.zipWith updateBin instant old ++ old.drop instant.length

/-- Initial persistent smoothed spectrum of Bode::new line 37:
vec of 8192 copies of (0.0, 0.0). -/
def smoothedInit : List (ℚ × ℚ) := List.replicate windowSize (0, 0)

/-- The persistent smoothed spectrum after a sequence of get_spectrum
calls at a fixed sampling rate, one abstract magnitude assignment per
call, starting from the initial all-zero spectrum. -/
def smoothedAfter (rate : Nat) (magsSeq : List (Nat → ℚ)) : List (ℚ × ℚ) :=
  magsSeq.foldl (fun acc mags => smoothSpectrum (instantSpectrum rate mags) acc)
    smoothedInit

/-- Model of the value of f64::log10 at a rational input: negative
infinity at zero, NaN below zero, and finite otherwise.  The finite
constructor carries the argument x and denotes the real number
log10 x; the claims only concern finiteness, never the finite value. -/
inductive FVal where
  | negInf : FVal
  | nan : FVal
  | finite (x : ℚ) : FVal
deriving DecidableEq, Repr

/-- f64::log10 as used at Bode::show line 85. -/
def log10F (x : ℚ) : FVal :=
  if 0 < x then .finite x else if x = 0 then .negInf else .nan

/-- The display transform of Bode::show lines 80-86: take the first
floor(length / 2) bins of the smoothed spectrum, then map each to
(log10 frequency, log10 magnitude). -/
def showPoints (data : List (ℚ × ℚ)) : List (FVal × FVal) :=
  (data.take (data.length / 2)).map (fun p => (log10F p.1, log10F p.2))

/-! ### Playback-state provider model (state.rs, Client::get_state)

The provider is the rspotify client.  Its payload types are embedded
with exactly the fields get_state reads; durations and instants are
milliseconds.  A provider value fixes the responses of the two calls
a poll cycle makes: current_playback and
current_user_saved_tracks_contains. -/

/-- rspotify RepeatState. -/
inductive RepeatSt where
  | off : RepeatSt
  | context : RepeatSt
  | track : RepeatSt
deriving DecidableEq, Repr

/-- rspotify Image (only the url field is read). -/
structure Image where
  url : String
deriving DecidableEq, Repr

instance : Inhabited Image := ⟨⟨""⟩⟩

/-- rspotify SimplifiedAlbum (the fields get_state reads). -/
structure Album where
  name : String
  images : List Image
deriving DecidableEq, Repr

/-- rspotify SimplifiedArtist (only the name field is read). -/
structure Artist where
  name : String
deriving DecidableEq, Repr

/-- rspotify FullTrack, fields read by get_state.  The id is optional
in the payload; duration is a plain (non-optional) field. -/
structure FullTrack where
  id : Option String
  name : String
  album : Album
  artists : List Artist
  duration : Int
deriving DecidableEq, Repr

/-- rspotify PlayableItem: the playing item is a track or an episode. -/
inductive PlayableItem where
  | track (t : FullTrack) : PlayableItem
  | episode : PlayableItem
deriving DecidableEq, Repr

/-- rspotify CurrentPlaybackContext, fields read by get_state. -/
structure PlaybackCtx where
  progress : Option Int
  item : Option PlayableItem
  shuffle_state : Bool
  repeat_state : RepeatSt
deriving DecidableEq, Repr

/-- rspotify ClientError: a transport or auth failure surfaced by the
provider. -/
inductive ClientErr where
  | transport (msg : String) : ClientErr
  | auth (msg : String) : ClientErr
deriving DecidableEq, Repr

/-- StateError of state.rs lines 8-16. -/
inductive StateErr where
  | client (e : ClientErr) : StateErr
  | noContext : StateErr
  | missingState : StateErr
deriving DecidableEq, Repr

/-- The State snapshot of state.rs lines 20-31.  instant_of_last_refresh
is the Instant::now() of the successful query, in milliseconds. -/
structure State where
  liked : Bool
  shuffled : Bool
  repeat_state : RepeatSt
  progress : Int
  duration : Int
  instant_of_last_refresh : Nat
  track : String
  album : String
  artists : List String
  cover_art_url : String
deriving DecidableEq, Repr

/-- One provider behaviour for one poll cycle: the response of
current_playback and the response of
current_user_saved_tracks_contains. -/
structure Provider where
  currentPlayback : Except ClientErr (Option PlaybackCtx)
  savedTracksContains : Except ClientErr (List Bool)
deriving Repr

/-- Result of one get_state call: a typed failure, a successful State,
or a panic of the poller task via unwrap. -/
inductive GetStateRes where
  | panicked : GetStateRes
  | failure (e : StateErr) : GetStateRes
  | success (s : State) : GetStateRes
deriving DecidableEq, Repr

/-- Client::get_state, state.rs lines 63-108.  The question-mark
operator on the two provider calls propagates ClientError; a missing
playback context is NoContext; a context without both a progress and a
track item is MissingState; on the happy path track.id.unwrap(),
liked_response.first().unwrap() and images.first().unwrap() panic when
absent, in that order (the id unwrap happens while building the liked
query argument, before the liked response is inspected). -/
def get_state (p : Provider) (now : Nat) : GetStateRes :=
  match p.currentPlayback with
  | .error e => .failure (.client e)
  | .ok none => .failure .noContext
  | .ok (some ctx) =>
    match ctx.progress, ctx.item with
    | some progress, some (.track t) =>
      match t.id with
      | none => .panicked
      | some _ =>
        match p.savedTracksContains with
        | .error e => .failure (.client e)
        | .ok likedList =>
          match likedList.head? with
          | none => .panicked
          | some liked =>
            match t.album.images.head? with
            | none => .panicked
            | some img =>
              .success
                { liked := liked
                  shuffled := ctx.shuffle_state
                  repeat_state := ctx.repeat_state
                  progress := progress
                  duration := t.duration
                  instant_of_last_refresh := now
                  track := t.name
                  album := t.album.name
                  artists := t.artists.map Artist.name
                  cover_art_url := img.url }
    | _, _ => .failure .missingState

/-- Payload well-formedness: the unstated preconditions under which the
poll cycle returns an outcome at all.  When an actively playing track
with progress is reported: the track id is present, and (unless the
liked query itself fails) the liked response is nonempty and the album
has at least one cover image. -/
def wellFormed (p : Provider) : Prop :=
  ∀ ctx t, p.currentPlayback = .ok (some ctx) →
    ctx.item = some (.track t) → ctx.progress.isSome →
      t.id.isSome ∧
      (∀ l, p.savedTracksContains = .ok l → l ≠ []) ∧
      t.album.images ≠ []

/-- Spec-side outcome mapping, written from the spec words (section 4.3
step 2): no active playback reported gives the NoActivePlayback
outcome; active playback with the required fields absent gives the
MissingFields outcome; a transport or auth failure is passed through;
otherwise the liked flag comes from the separate liked query and a
complete PlaybackState is returned whose fields equal the provider
payload, with captured_at the instant of this successful query. -/
def specOutcome (p : Provider) (now : Nat) : GetStateRes :=
  match p.currentPlayback with
  | .error e => .failure (.client e)
  | .ok none => .failure .noContext
  | .ok (some ctx) =>
    match ctx.progress, ctx.item with
    | some progress, some (.track t) =>
      match p.savedTracksContains with
      | .error e => .failure (.client e)
      | .ok likedList =>
        .success
          { liked := likedList.headI
            shuffled := ctx.shuffle_state
            repeat_state := ctx.repeat_state
            progress := progress
            duration := t.duration
            instant_of_last_refresh := now
            track := t.name
            album := t.album.name
            artists := t.artists.map Artist.name
            cover_art_url := (t.album.images.headI : Image).url }
    | _, _ => .failure .missingState

/-! ### Consumer contract (lib.rs, Visualizer::update lines 31-60)

Each frame performs exactly one try_recv on the channel; the model
takes the result of that single attempt as an Option.  The returned
pair is the new displayed state and the list of error messages logged
this frame (eprintln at line 36). -/

/-- The one-per-frame receive handling of Visualizer::update lines
32-37: a success replaces the displayed state wholesale, a failure is
logged and changes nothing, an empty channel changes nothing. -/
def frameUpdate (cur : State) (msg : Option (Except StateErr State)) :
    State × List StateErr :=
  match msg with
  | some (.ok s) => (s, [])
  | some (.error e) => (cur, [e])
  | none => (cur, [])

/-- The displayed progress of Visualizer::update line 53: the last
snapshot progress plus the wall clock elapsed since
instant_of_last_refresh (Instant::elapsed, in milliseconds; the
chrono conversion only fails on astronomical durations and is not
modelled).  No clamp to the track duration is applied. -/
def displayedProgress (s : State) (now : Nat) : Int :=
  s.progress + ((now - s.instant_of_last_refresh : Nat) : Int)

/-! ### Poller, channel and consumer as a transition system
(lib.rs show line 150: channel(1); state.rs Client::spawn lines
110-116)

The tokio mpsc channel created by show has capacity 1.  The poller
task loops: produce an outcome (get_state), send it (awaiting while
the channel is full; the send fails exactly when the receiver is
gone), sleep REFRESH_RATE_MS, repeat; the loop body exits when the
send fails.  Outcomes are identified by their poll index.  The
consumer may drain the channel head or drop the receiver at any
time. -/

/-- REFRESH_RATE_MS of state.rs line 6. -/
def REFRESH_RATE_MS : Nat := 5000

/-- Channel capacity requested by show, lib.rs line 150. -/
def chanCap : Nat := 1

/-- Control position of the poller task inside its loop. -/
inductive Phase where
  | polling : Phase
  | sending : Phase
  | sleeping (ms : Nat) : Phase
  | done : Phase
deriving DecidableEq, Repr

/-- Whole-system state: poller phase, index of the outcome currently
being produced or sent, channel buffer (outcome indices, head =
oldest), list of outcomes the consumer has drained, and whether the
receiver is still alive. -/
structure Sys where
  phase : Phase
  produced : Nat
  buf : List Nat
  received : List Nat
  recvAlive : Bool
deriving DecidableEq, Repr

/-- Initial system state: poller about to run its first poll, channel
empty, receiver alive. -/
def initSys : Sys :=
  { phase := .polling, produced := 0, buf := [], received := [], recvAlive := true }

/-- One step of the system.  The bounded send only fires while the
buffer holds fewer than chanCap outcomes; with the buffer full no
poller step is enabled, which is the suspension of tx.send(..).await.
A send attempted after the receiver is gone returns an error and ends
the loop (the while-let in Client::spawn). -/
inductive Step : Sys → Sys → Prop where
  | finishPoll (s : Sys) (h : s.phase = .polling) :
      Step s { s with phase := .sending }
  | sendOk (s : Sys) (h : s.phase = .sending) (ha : s.recvAlive = true)
      (hroom : s.buf.length < chanCap) :
      Step s { s with buf := s.buf ++ [s.produced], phase := .sleeping REFRESH_RATE_MS }
  | sendClosed (s : Sys) (h : s.phase = .sending) (ha : s.recvAlive = false) :
      Step s { s with phase := .done }
  | wake (s : Sys) (ms : Nat) (h : s.phase = .sleeping ms) :
      Step s { s with phase := .polling, produced := s.produced + 1 }
  | recv (s : Sys) (i : Nat) (rest : List Nat) (ha : s.recvAlive = true)
      (hb : s.buf = i :: rest) :
      Step s { s with buf := rest, received := s.received ++ [i] }
  | closeRecv (s : Sys) (ha : s.recvAlive = true) :
      Step s { s with recvAlive := false }

/-- Reachability from the initial state. -/
def Reachable (s : Sys) : Prop := Relation.ReflTransGen Step initSys s

/-! ### Poller loop trace (state.rs Client::spawn lines 110-116)

The loop body as a trace-producing function: the environment script
says for each iteration whether the send finds the receiver alive.
Events are emitted in program order: query, delivery, then either the
fixed sleep and the next iteration, or loop exit on a failed
delivery.  Nothing is logged or reported on exit. -/

/-- Observable events of the poller loop. -/
inductive PEvent where
  | poll (i : Nat) : PEvent
  | send (i : Nat) (ok : Bool) : PEvent
  | sleep (ms : Nat) : PEvent
  | exited : PEvent
deriving DecidableEq, Repr

/-- Trace of the while-let loop of Client::spawn, starting at poll
index i, driven by the per-iteration send results.  An exhausted
script means the loop is still running. -/
def pollerTrace (i : Nat) : List Bool → List PEvent
  | [] => []
  | ok :: rest =>
      .poll i :: .send i ok ::
        (if ok then .sleep REFRESH_RATE_MS :: pollerTrace (i + 1) rest
         else [.exited])

/-! ### Helper lemmas: spectrum pipeline -/

/-- Filtering an initial range by an upper bound gives an initial range. -/
theorem filter_range_le (n c : Nat) :
    (List.range n).filter (fun i => i ≤ c) = List.range (min n (c + 1)) := by
  induction n with
  | zero => simp
  | succ n ih =>
      rw [List.range_succ, List.filter_append, ih]
      by_cases h : n ≤ c
      · have h1 : min (n + 1) (c + 1) = n + 1 := by omega
        have h2 : min n (c + 1) = n := by omega
        simp [h, h1, h2, List.range_succ]
      · have h1 : min (n + 1) (c + 1) = c + 1 := by omega
        have h2 : min n (c + 1) = c + 1 := by omega
        simp [h, h1, h2]

/-- Closed form of the reported FFT bin index list. -/
theorem binIndices_eq (rate : Nat) (hr : 0 < rate) :
    binIndices rate = List.range (min 4096 (81920000 / rate + 1)) := by
  unfold binIndices windowSize
  have hcong : ∀ i ∈ List.range (8192 / 2),
      (decide (i * rate ≤ 10000 * 8192)) = decide (i ≤ 81920000 / rate) := by
    intro i _
    have h : i * rate ≤ 10000 * 8192 ↔ i ≤ 81920000 / rate := by
      rw [Nat.le_div_iff_mul_le hr]
    simp [h]
  rw [List.filter_congr hcong]
  exact filter_range_le (8192 / 2) (81920000 / rate)

/-- Closed form of the reported bin count. -/
theorem numBins_eq (rate : Nat) (hr : 0 < rate) :
    numBins rate = min 4096 (81920000 / rate + 1) := by
  rw [numBins, binIndices_eq rate hr, List.length_range]

/-- The crate never reports more than N/2 bins, in particular fewer
than 8192. -/
theorem numBins_lt (rate : Nat) : numBins rate < 8192 := by
  have h : (binIndices rate).length ≤ (List.range (windowSize / 2)).length :=
    List.length_filter_le _ _
  simp only [List.length_range, windowSize] at h
  unfold numBins
  omega

/-- The instantaneous spectrum has one entry per reported bin. -/
theorem length_instantSpectrum (rate : Nat) (mags : Nat → ℚ) :
    (instantSpectrum rate mags).length = numBins rate := by
  simp [instantSpectrum, numBins]

/-- The smoothing pass never changes the length of the persistent
spectrum. -/
theorem length_smoothSpectrum (instant old : List (ℚ × ℚ)) :
    (smoothSpectrum instant old).length = old.length := by
  simp [smoothSpectrum]
  omega

/-- Entry i of the smoothed spectrum, for i inside the zipped range. -/
theorem getElem?_smoothSpectrum_lt (instant old : List (ℚ × ℚ)) (i : Nat)
    (hi : i < instant.length) (ho : i < old.length) :
    (smoothSpectrum instant old)[i]? =
      some (updateBin (instant.get ⟨i, hi⟩) (old.get ⟨i, ho⟩)) := by
  unfold smoothSpectrum
  rw [List.getElem?_append_left (by simp; omega)]
  rw [List.getElem?_zipWith]
  rw [List.getElem?_eq_getElem hi, List.getElem?_eq_getElem ho]
  simp [List.get_eq_getElem]

/-- Entries at or beyond the instantaneous spectrum length are left
untouched by the smoothing pass. -/
theorem getElem?_smoothSpectrum_ge (instant old : List (ℚ × ℚ)) (j : Nat)
    (hj : instant.length ≤ j) :
    (smoothSpectrum instant old)[j]? = old[j]? := by
  unfold smoothSpectrum
  rw [List.getElem?_append_right (by simp; omega)]
  rw [List.getElem?_drop]
  by_cases hio : instant.length ≤ old.length
  · have h1 : (List.zipWith updateBin instant old).length = instant.length := by
      simp; omega
    rw [h1]
    congr 1
    omega
  · have h1 : (List.zipWith updateBin instant old).length = old.length := by
      simp; omega
    rw [h1]
    rw [List.getElem?_eq_none (by omega), List.getElem?_eq_none (by omega)]

/-- The persistent smoothed spectrum always has length 8192. -/
theorem smoothedAfter_length (rate : Nat) (magsSeq : List (Nat → ℚ)) :
    (smoothedAfter rate magsSeq).length = 8192 := by
  unfold smoothedAfter
  have h : ∀ acc : List (ℚ × ℚ), acc.length = 8192 →
      (magsSeq.foldl
        (fun acc mags => smoothSpectrum (instantSpectrum rate mags) acc) acc).length
        = 8192 := by
    induction magsSeq with
    | nil => intro acc ha; simpa using ha
    | cons m ms ih =>
        intro acc ha
        rw [List.foldl_cons]
        exact ih _ (by rw [length_smoothSpectrum]; exact ha)
  refine h smoothedInit ?_
  unfold smoothedInit windowSize
  exact List.length_replicate 8192 (0, 0)

/-- Entries at index at least numBins rate keep their initial (0, 0)
value through every recomputation. -/
theorem smoothedAfter_ge (rate : Nat) (magsSeq : List (Nat → ℚ)) (j : Nat)
    (hj : numBins rate ≤ j) (hj2 : j < 8192) :
    (smoothedAfter rate magsSeq)[j]? = some (0, 0) := by
  unfold smoothedAfter
  have h : ∀ acc : List (ℚ × ℚ), acc[j]? = some (0, 0) →
      (magsSeq.foldl
        (fun acc mags => smoothSpectrum (instantSpectrum rate mags) acc) acc)[j]?
        = some (0, 0) := by
    induction magsSeq with
    | nil => intro acc ha; simpa using ha
    | cons m ms ih =>
        intro acc ha
        rw [List.foldl_cons]
        refine ih _ ?_
        rw [getElem?_smoothSpectrum_ge _ _ j (by rw [length_instantSpectrum]; omega)]
        exact ha
  refine h smoothedInit ?_
  unfold smoothedInit windowSize
  rw [List.getElem?_replicate, if_pos (by omega)]

/-! ### Claim theorems: spectrum pipeline -/

/-- Claim C1: on every spectrum recomputation, each bin i updated by
the smoothing pass stores magnitude max(instant magnitude * 5000,
previous magnitude * 0.84) and its frequency is overwritten with the
new bin frequency; in particular, absent a new louder instantaneous
peak, the stored magnitude of the next frame is the previous one times
0.84. -/
theorem peak_hold_smoothing_rule (instant old : List (ℚ × ℚ)) (i : Nat)
    (hi : i < instant.length) (ho : i < old.length) :
    (smoothSpectrum instant old)[i]? =
      some ((instant.get ⟨i, hi⟩).1,
        max ((instant.get ⟨i, hi⟩).2 * 5000) ((old.get ⟨i, ho⟩).2 * (84 / 100))) ∧
    ((instant.get ⟨i, hi⟩).2 * 5000 ≤ (old.get ⟨i, ho⟩).2 * (84 / 100) →
      ((smoothSpectrum instant old)[i]?).map Prod.snd =
        some ((old.get ⟨i, ho⟩).2 * (84 / 100))) := by
  have h := getElem?_smoothSpectrum_lt instant old i hi ho
  constructor
  · rw [h]
    rfl
  · intro hle
    rw [h]
    unfold updateBin
    simp only [Option.map_some']
    rw [max_eq_right hle]

/-- Witness for C1 at a concrete input: instant magnitude 0 against a
previously stored magnitude 10 decays to 10 * 0.84. -/
theorem peak_hold_smoothing_rule_witness :
    ((smoothSpectrum [((100 : ℚ), (0 : ℚ))] [((0 : ℚ), (10 : ℚ))])[0]?).map Prod.snd =
      some ((10 : ℚ) * (84 / 100)) := by
  have h := (peak_hold_smoothing_rule [((100 : ℚ), (0 : ℚ))] [((0 : ℚ), (10 : ℚ))] 0
    (by decide) (by decide)).2 (by norm_num)
  exact h

/-- Claim C10: the persistent smoothed spectrum has length 8192 before
and after every recomputation; a call updates only its first K
entries, K being the number of FFT bins at or below 10 kHz (always
below 8192); every entry at index at least K keeps its initial value
(0, 0) through every call, so its frequency stays 0.0 and its
magnitude is never decayed or overwritten. -/
theorem smoothed_tail_never_updated (rate : Nat) (magsSeq : List (Nat → ℚ))
    (mags : Nat → ℚ) (j : Nat) (hK : numBins rate ≤ j) (hj : j < 8192) :
    smoothedInit.length = 8192 ∧
    (smoothedAfter rate magsSeq).length = 8192 ∧
    numBins rate < 8192 ∧
    (smoothSpectrum (instantSpectrum rate mags) (smoothedAfter rate magsSeq))[j]? =
      (smoothedAfter rate magsSeq)[j]? ∧
    (smoothedAfter rate magsSeq)[j]? = some (0, 0) := by
  refine ⟨?_, smoothedAfter_length rate magsSeq, numBins_lt rate, ?_, ?_⟩
  · unfold smoothedInit windowSize
    exact List.length_replicate 8192 (0, 0)
  · exact getElem?_smoothSpectrum_ge _ _ j
      (by rw [length_instantSpectrum]; omega)
  · exact smoothedAfter_ge rate magsSeq j hK hj

/-- Witness for C10 at sampling rate 44100 (K = 1858), index 8191,
after zero recomputations. -/
theorem smoothed_tail_never_updated_witness :
    (smoothedAfter 44100 [])[8191]? = some ((0 : ℚ), (0 : ℚ)) := by
  have hK : numBins 44100 ≤ 8191 := by
    rw [numBins_eq 44100 (by norm_num)]
    norm_num
  exact (smoothed_tail_never_updated 44100 [] (fun _ => 0) 8191 hK
    (by norm_num)).2.2.2.2

/-- Claim C7: for every reachable smoothed-spectrum state (the ring
buffer always holds at least 8192 samples by construction), the
sequence handed to the plot has length exactly 4096 = 8192 / 2, is the
first half of the smoothed bin sequence only, and each pair is the
base-10 logarithm of the bin frequency and of the bin magnitude. -/
theorem show_output_half_loglog (rate : Nat) (magsSeq : List (Nat → ℚ))
    (mags : Nat → ℚ) :
    (showPoints (smoothSpectrum (instantSpectrum rate mags)
        (smoothedAfter rate magsSeq))).length = 4096 ∧
    showPoints (smoothSpectrum (instantSpectrum rate mags)
        (smoothedAfter rate magsSeq)) =
      ((smoothSpectrum (instantSpectrum rate mags)
          (smoothedAfter rate magsSeq)).take 4096).map
        (fun p => (log10F p.1, log10F p.2)) := by
  have hd : (smoothSpectrum (instantSpectrum rate mags)
      (smoothedAfter rate magsSeq)).length = 8192 := by
    rw [length_smoothSpectrum]
    exact smoothedAfter_length rate magsSeq
  constructor
  · unfold showPoints
    rw [List.length_map, List.length_take, hd]
    norm_num
  · unfold showPoints
    rw [hd]

/-- Claim C3 (code bug evidence): no epsilon floor is applied before
the base-10 logarithm in Bode::show; at sampling rate 44100 with a
silent input window and the initial all-zero smoothed spectrum, the
plotted output contains the point (log10 0, log10 0) =
(-infinity, -infinity). -/
theorem show_output_contains_neg_infinity :
    (FVal.negInf, FVal.negInf) ∈
      showPoints (smoothSpectrum (instantSpectrum 44100 (fun _ => 0))
        smoothedInit) := by
  have hd : (smoothSpectrum (instantSpectrum 44100 (fun _ => 0))
      smoothedInit).length = 8192 := by
    rw [length_smoothSpectrum]
    unfold smoothedInit windowSize
    exact List.length_replicate 8192 (0, 0)
  have hK : numBins 44100 ≤ 4095 := by
    rw [numBins_eq 44100 (by norm_num)]
    norm_num
  have h4095 : (smoothSpectrum (instantSpectrum 44100 (fun _ => 0))
      smoothedInit)[4095]? = some ((0 : ℚ), (0 : ℚ)) := by
    rw [getElem?_smoothSpectrum_ge _ _ 4095
      (by rw [length_instantSpectrum]; omega)]
    unfold smoothedInit windowSize
    rw [List.getElem?_replicate, if_pos (by omega)]
  have hpt : (showPoints (smoothSpectrum (instantSpectrum 44100 (fun _ => 0))
      smoothedInit))[4095]? = some (FVal.negInf, FVal.negInf) := by
    unfold showPoints
    rw [List.getElem?_map, List.getElem?_take_of_lt (by rw [hd]; norm_num), h4095]
    simp [log10F]
  exact List.getElem?_mem hpt

/-! ### Claim theorem: ring buffer -/

/-- Claim C4: the ring buffer capacity is a power of two holding at
least 5 seconds of samples at the device sample rate; it is pre-filled
with zeros so it always holds exactly capacity elements; and after
writing capacity + k samples a snapshot yields exactly the last
capacity written samples in write order. -/
theorem ring_buffer_invariants (rate : Nat) (ws : List ℚ) (k : Nat)
    (hw : ws.length = ringCapacity rate + k) :
    (∃ m, ringCapacity rate = 2 ^ m) ∧
    5 * rate ≤ ringCapacity rate ∧
    (rbInit (ringCapacity rate)).length = ringCapacity rate ∧
    (∀ vs : List ℚ,
      (rbWriteAll (ringCapacity rate) (rbInit (ringCapacity rate)) vs).length =
        ringCapacity rate) ∧
    rbWriteAll (ringCapacity rate) (rbInit (ringCapacity rate)) ws = ws.drop k := by
  have hpow : (ringCapacity rate).isPowerOfTwo :=
    Nat.isPowerOfTwo_nextPowerOfTwo (5 * rate)
  have hpos : 0 < ringCapacity rate := Nat.pos_of_isPowerOfTwo hpow
  have hinit : (rbInit (ringCapacity rate)).length = ringCapacity rate :=
    List.length_replicate _ _
  refine ⟨hpow, le_nextPowerOfTwo (5 * rate), hinit, ?_, ?_⟩
  · intro vs
    exact rbWriteAll_length _ _ vs hpos hinit
  · rw [rbWriteAll_full_eq _ _ ws hpos hinit, hw]
    unfold rbInit
    rw [List.drop_append_eq_append_drop]
    rw [List.drop_eq_nil_of_le (by rw [List.length_replicate]; omega)]
    rw [List.length_replicate]
    simp only [List.nil_append]
    congr 1
    omega

/-- Witness for C4 at sample rate 1: capacity 8, nine writes, snapshot
is the last eight samples. -/
theorem ring_buffer_invariants_witness :
    rbWriteAll (ringCapacity 1) (rbInit (ringCapacity 1))
      [1, 2, 3, 4, 5, 6, 7, 8, 9] =
      List.drop 1 [(1 : ℚ), 2, 3, 4, 5, 6, 7, 8, 9] :=
  (ring_buffer_invariants 1 [1, 2, 3, 4, 5, 6, 7, 8, 9] 1
    (by simp [ringCapacity, Nat.nextPowerOfTwo, Nat.nextPowerOfTwo.go])).2.2.2.2

/-! ### Concrete provider payloads for counterexamples and witnesses -/

/-- A playing track whose id is absent from the payload. -/
def cexTrack : FullTrack :=
  { id := none
    name := "A"
    album := { name := "B", images := [{ url := "https://img" }] }
    artists := [{ name := "C" }]
    duration := 200000 }

/-- An active playback context around cexTrack. -/
def cexCtx : PlaybackCtx :=
  { progress := some 30000
    item := some (.track cexTrack)
    shuffle_state := false
    repeat_state := .off }

/-- A provider reporting active playback of a track without an id. -/
def cexProvider : Provider :=
  { currentPlayback := .ok (some cexCtx)
    savedTracksContains := .ok [true] }

/-- A playing track with all unstated preconditions satisfied. -/
def wfTrack : FullTrack :=
  { id := some "id0"
    name := "A"
    album := { name := "B", images := [{ url := "https://img" }] }
    artists := [{ name := "C" }]
    duration := 200000 }

/-- An active playback context around wfTrack. -/
def wfCtx : PlaybackCtx :=
  { progress := some 30000
    item := some (.track wfTrack)
    shuffle_state := false
    repeat_state := .off }

/-- A well-formed provider response. -/
def wfProvider : Provider :=
  { currentPlayback := .ok (some wfCtx)
    savedTracksContains := .ok [true] }

/-! ### Claim theorems: poll-cycle outcome mapping -/

/-- Claim C5, counterexample: a provider response reporting an active
track with progress, no transport failure, but an absent track id is
in the claim's final bucket, where the claim promises a complete
PlaybackState outcome; the code instead panics via unwrap and delivers
no outcome at all. -/
theorem get_state_no_outcome_on_missing_id :
    get_state cexProvider 0 = GetStateRes.panicked ∧
    get_state cexProvider 0 ≠ specOutcome cexProvider 0 := by
  constructor
  · rfl
  · decide

/-- Claim C5 as amended: for every provider response additionally
satisfying the unstated well-formedness preconditions (track id
present; liked response nonempty; album cover image present), the poll
cycle maps it to exactly one outcome, the one given by the spec
mapping: NoActivePlayback when nothing plays, MissingFields when
progress or a track item is absent, pass-through of provider failures,
and otherwise a complete PlaybackState whose fields equal the payload
with captured_at the instant of the query. -/
theorem get_state_outcome_mapping (p : Provider) (now : Nat)
    (h : wellFormed p) :
    get_state p now = specOutcome p now := by
  rcases hp : p.currentPlayback with e | ctxOpt
  · simp [get_state, specOutcome, hp]
  · rcases ctxOpt with _ | ctx
    · simp [get_state, specOutcome, hp]
    · rcases hprog : ctx.progress with _ | pr
      · simp [get_state, specOutcome, hp, hprog]
      · rcases hitem : ctx.item with _ | it
        · simp [get_state, specOutcome, hp, hprog, hitem]
        · rcases it with t | _
          · obtain ⟨hid, hlik, himg⟩ :=
              h ctx t hp hitem (by simp [hprog])
            rcases hid2 : t.id with _ | tid
            · rw [hid2] at hid
              simp at hid
            · rcases hsv : p.savedTracksContains with e | l
              · simp [get_state, specOutcome, hp, hprog, hitem, hid2, hsv]
              · have hne : l ≠ [] := hlik l hsv
                rcases l with _ | ⟨b, bs⟩
                · exact absurd rfl hne
                · rcases himgs : t.album.images with _ | ⟨im, ims⟩
                  · exact absurd himgs himg
                  · simp [get_state, specOutcome, hp, hprog, hitem, hid2,
                      hsv, himgs]
          · simp [get_state, specOutcome, hp, hprog, hitem]

/-- Witness for the amended C5 at a concrete well-formed provider. -/
theorem get_state_outcome_mapping_witness :
    get_state wfProvider 5 = specOutcome wfProvider 5 := by
  refine get_state_outcome_mapping wfProvider 5 ?_
  intro ctx t h1 h2 _
  have h1a : Except.ok (ε := ClientErr) (some wfCtx) = .ok (some ctx) := h1
  injection h1a with h1b
  injection h1b with h1c
  subst h1c
  have h2a : some (PlayableItem.track wfTrack) = some (.track t) := h2
  injection h2a with h2b
  injection h2b with h2c
  subst h2c
  refine ⟨by decide, ?_, by decide⟩
  intro l hl
  have hla : Except.ok (ε := ClientErr) [true] = .ok l := hl
  injection hla with hlb
  subst hlb
  decide

/-- Claim C9: for an actively playing track, the poll-cycle query
panics via unwrap instead of returning any typed outcome when the
track id is absent, when the liked-query response list is empty, or
when the album has no cover images. -/
theorem get_state_unwrap_panics (p : Provider) (now : Nat)
    (ctx : PlaybackCtx) (t : FullTrack) (pr : Int)
    (hp : p.currentPlayback = .ok (some ctx))
    (hprog : ctx.progress = some pr)
    (hitem : ctx.item = some (.track t)) :
    (t.id = none → get_state p now = .panicked) ∧
    (∀ tid, t.id = some tid → p.savedTracksContains = .ok [] →
      get_state p now = .panicked) ∧
    (∀ tid b bs, t.id = some tid → p.savedTracksContains = .ok (b :: bs) →
      t.album.images = [] → get_state p now = .panicked) := by
  refine ⟨?_, ?_, ?_⟩
  · intro hid
    simp [get_state, hp, hprog, hitem, hid]
  · intro tid hid hsv
    simp [get_state, hp, hprog, hitem, hid, hsv]
  · intro tid b bs hid hsv himg
    simp [get_state, hp, hprog, hitem, hid, hsv, himg]

/-- Witness for C9: the concrete id-less payload makes the poll cycle
panic. -/
theorem get_state_unwrap_panics_witness :
    get_state cexProvider 7 = GetStateRes.panicked :=
  (get_state_unwrap_panics cexProvider 7 cexCtx cexTrack 30000
    rfl rfl rfl).1 rfl

/-! ### Claim theorem: consumer contract -/

/-- Claim C6: each frame performs one non-blocking receive; nothing
available keeps the displayed state and extrapolates progress as last
progress plus wall clock elapsed since captured_at, with no clamp to
the duration (displayed progress can exceed it); a success replaces
the displayed state wholesale, resetting the extrapolation origin; a
failure is logged and leaves the displayed state unchanged. -/
theorem frame_update_contract (cur s : State) (e : StateErr) (d : Nat) :
    frameUpdate cur none = (cur, []) ∧
    displayedProgress cur (cur.instant_of_last_refresh + d) = cur.progress + d ∧
    frameUpdate cur (some (.ok s)) = (s, []) ∧
    frameUpdate cur (some (.error e)) = (cur, [e]) ∧
    (∃ st : State, ∃ n : Nat, st.duration < displayedProgress st n) := by
  refine ⟨rfl, ?_, rfl, rfl, ?_⟩
  · unfold displayedProgress
    simp
  · refine ⟨⟨false, false, .off, 0, 5, 0, "", "", [], ""⟩, 10, ?_⟩
    norm_num [displayedProgress]

/-! ### Helper lemmas: channel invariant -/

/-- Bookkeeping between the poller position and the number of outcomes
that have entered the channel. -/
def phaseLen (s : Sys) : Prop :=
  match s.phase with
  | .sleeping ms =>
      ms = REFRESH_RATE_MS ∧ s.received.length + s.buf.length = s.produced + 1
  | _ => s.received.length + s.buf.length = s.produced

/-- System invariant: the channel never holds more than its capacity,
and the outcomes that have entered it, received ones first, are
exactly the poll indices in order. -/
def Inv (s : Sys) : Prop :=
  s.buf.length ≤ chanCap ∧
  s.received ++ s.buf = List.range (s.received.length + s.buf.length) ∧
  phaseLen s

theorem inv_init : Inv initSys := by
  refine ⟨by simp [initSys, chanCap], by simp [initSys], ?_⟩
  simp [phaseLen, initSys]

theorem inv_step (s s₂ : Sys) (h : Inv s) (hst : Step s s₂) : Inv s₂ := by
  obtain ⟨hcap, hrange, hph⟩ := h
  cases hst with
  | finishPoll hp =>
      refine ⟨hcap, hrange, ?_⟩
      simp only [phaseLen, hp] at hph
      simpa [phaseLen] using hph
  | sendOk hp ha hroom =>
      simp only [phaseLen, hp] at hph
      refine ⟨?_, ?_, ?_⟩
      · simp
        omega
      · simp only [List.length_append, List.length_cons, List.length_nil]
        rw [← List.append_assoc, hrange, ← hph, ← List.range_succ]
        congr 1
      · simp [phaseLen]
        omega
  | sendClosed hp ha =>
      simp only [phaseLen, hp] at hph
      exact ⟨hcap, hrange, by simpa [phaseLen] using hph⟩
  | wake ms hp =>
      simp only [phaseLen, hp] at hph
      refine ⟨hcap, hrange, ?_⟩
      simp [phaseLen]
      omega
  | recv i rest ha hb =>
      have hlen : s.buf.length = rest.length + 1 := by rw [hb]; simp
      refine ⟨?_, ?_, ?_⟩
      · simp
        omega
      · simp only [List.append_assoc, List.singleton_append, ← hb]
        rw [hrange]
        congr 1
        simp
        omega
      · cases hph2 : s.phase with
        | sleeping ms =>
            simp only [phaseLen, hph2] at hph
            simp only [phaseLen, hph2]
            simp at hph ⊢
            omega
        | polling =>
            simp only [phaseLen, hph2] at hph
            simp only [phaseLen, hph2]
            simp at hph ⊢
            omega
        | sending =>
            simp only [phaseLen, hph2] at hph
            simp only [phaseLen, hph2]
            simp at hph ⊢
            omega
        | done =>
            simp only [phaseLen, hph2] at hph
            simp only [phaseLen, hph2]
            simp at hph ⊢
            omega
  | closeRecv ha =>
      refine ⟨hcap, hrange, ?_⟩
      cases hph2 : s.phase <;> simp only [phaseLen, hph2] at hph <;>
        simpa [phaseLen, hph2] using hph

theorem reachable_inv (s : Sys) (h : Reachable s) : Inv s := by
  induction h with
  | refl => exact inv_init
  | tail hpre hstep ih => exact inv_step _ _ ih hstep

/-! ### Claim theorems: channel backpressure and poller loop -/

/-- Claim C2: the poll-outcome channel has capacity exactly 1; in every
reachable state at most one undelivered outcome exists and the drained
outcomes are exactly the poll indices in order; and from any state
whose single slot is occupied, no step overwrites, drops or queues
behind the occupant — it stays in place until the consumer receives
it (the send step is disabled, suspending the poller). -/
theorem channel_backpressure :
    chanCap = 1 ∧
    (∀ s : Sys, Reachable s → s.buf.length ≤ 1 ∧
      s.received = List.range s.received.length) ∧
    (∀ (s s₂ : Sys) (i : Nat), Step s s₂ → s.buf = [i] →
      s₂.buf = [i] ∨ (s₂.buf = [] ∧ s₂.received = s.received ++ [i])) := by
  refine ⟨rfl, ?_, ?_⟩
  · intro s hs
    obtain ⟨hcap, hrange, _⟩ := reachable_inv s hs
    refine ⟨hcap, ?_⟩
    have h3 := congrArg (List.take s.received.length) hrange
    rw [List.take_left, List.take_range] at h3
    have h4 : min s.received.length (s.received.length + s.buf.length) =
        s.received.length := by omega
    rw [h4] at h3
    exact h3
  · intro s s₂ i hst hbuf
    cases hst with
    | finishPoll hp => exact Or.inl hbuf
    | sendOk hp ha hroom =>
        rw [hbuf] at hroom
        simp [chanCap] at hroom
    | sendClosed hp ha => exact Or.inl hbuf
    | wake ms hp => exact Or.inl hbuf
    | recv j rest ha hb =>
        rw [hbuf] at hb
        injection hb with h1 h2
        subst h1
        subst h2
        exact Or.inr ⟨rfl, rfl⟩
    | closeRecv ha => exact Or.inl hbuf

/-- A state with the single channel slot occupied by outcome 0. -/
def sysFull : Sys :=
  { phase := .sleeping 5000, produced := 0, buf := [0], received := [],
    recvAlive := true }

/-- Witness for C2: the initial state respects the capacity bound, and
on the concrete full-slot state the only slot-changing step is the
consumer receive. -/
theorem channel_backpressure_witness :
    (initSys.buf.length ≤ 1 ∧
      initSys.received = List.range initSys.received.length) ∧
    (({ sysFull with buf := [], received := sysFull.received ++ [0] } : Sys).buf = [0] ∨
      (({ sysFull with buf := [], received := sysFull.received ++ [0] } : Sys).buf = [] ∧
       ({ sysFull with buf := [], received := sysFull.received ++ [0] } : Sys).received =
         sysFull.received ++ [0])) :=
  ⟨channel_backpressure.2.1 initSys Relation.ReflTransGen.refl,
   channel_backpressure.2.2 sysFull _ 0 (Step.recv sysFull 0 [] rfl rfl) rfl⟩

/-- Claim C8: the poller loop sleeps the fixed 5000 ms cadence after
each successfully delivered outcome and then repeats; it terminates
exactly when a delivery attempt fails because the receiver is gone,
and nothing else ends the loop; termination emits no user-facing
error event. -/
theorem poller_cadence_and_shutdown :
    REFRESH_RATE_MS = 5000 ∧
    (∀ (i : Nat) (script : List Bool) (ms : Nat),
      PEvent.sleep ms ∈ pollerTrace i script → ms = 5000) ∧
    (∀ (i : Nat) (rest : List Bool), pollerTrace i (true :: rest) =
      .poll i :: .send i true :: .sleep REFRESH_RATE_MS :: pollerTrace (i + 1) rest) ∧
    (∀ (i : Nat) (rest : List Bool), pollerTrace i (false :: rest) =
      [.poll i, .send i false, .exited]) ∧
    (∀ (i : Nat) (script : List Bool),
      PEvent.exited ∈ pollerTrace i script ↔ false ∈ script) := by
  refine ⟨rfl, ?_, ?_, ?_, ?_⟩
  · intro i script
    induction script generalizing i with
    | nil => intro ms h; simp [pollerTrace] at h
    | cons ok rest ih =>
        intro ms h
        cases ok with
        | true =>
            simp [pollerTrace, REFRESH_RATE_MS] at h
            rcases h with h | h
            · exact h
            · exact ih (i + 1) ms h
        | false =>
            simp [pollerTrace] at h
  · intro i rest; rfl
  · intro i rest; rfl
  · intro i script
    induction script generalizing i with
    | nil => simp [pollerTrace]
    | cons ok rest ih =>
        cases ok with
        | true => simp [pollerTrace, ih (i + 1)]
        | false => simp [pollerTrace]

/-- Witness for C8: a failed delivery on the first cycle ends the loop. -/
theorem poller_cadence_and_shutdown_witness :
    PEvent.exited ∈ pollerTrace 0 [false] :=
  (poller_cadence_and_shutdown.2.2.2.2 0 [false]).mpr (by simp)

end Visify
